import Mathlib

/-!
Verification development for the `nr-maser-mon` repository: a shallow
embedding of the serial-line framing, fixed-column telemetry decoding and
atomic metrics-publication logic of `src/nr-maser-mon.py` (with the
sentinel-terminated relay of `src/serial-relay-nrcan-to-maser.py`).

Python machine-level conventions are embedded as follows:
* Python `str` is Lean `String`; slicing `s[a:b]` (with nonnegative bounds,
  as in all call sites) is `pySlice`, which clamps like Python; a single
  index access `s[i]`, which raises `IndexError` out of range, is
  `pyCharAt?` returning `Option Char` (with `none` for the raised error).
* Python `int(s, base)` / `float(s)` are modelled by `pyInt?` / `pyFloat?`
  returning `none` where CPython raises `ValueError`.  The models cover
  ASCII whitespace stripping, an optional sign, base markers (`0b`/`0B`
  for base 2) and underscore digit separators.  Unicode digits and the
  non-finite float literals (`inf`/`nan`), which never arise from the
  fixed seven-bit serial columns, are not reproduced.  Successful float
  parses are represented exactly as rationals (`Rat`): IEEE-754 rounding
  is abstracted away, as no claim concerns it.
* A decoder that can raise an uncaught exception is `Option`-valued.
-/

namespace MaserMon

/-- Python slice `s[a:b]` for nonnegative bounds: the characters with
indices in `[a, min b (length s))`. -/
def pySlice (s : String) (a b : Nat) : String :=
  ⟨(s.data.drop a).take (b - a)⟩

/-- Python single-character index `s[i]`: `none` models the `IndexError`
raised when `i` is out of range. -/
def pyCharAt? (s : String) (i : Nat) : Option Char :=
  s.data.get? i

/-- ASCII whitespace, the relevant fragment of the character class stripped
by Python's `str.strip()` and ignored around numeric literals. -/
def isWsChar (c : Char) : Bool :=
  c.toNat = 32 || c.toNat = 9 || c.toNat = 10 || c.toNat = 11 ||
    c.toNat = 12 || c.toNat = 13

/-- Strip a character class from both ends of a character list (Python
`str.strip(chars)` semantics). -/
def stripBoth (p : Char → Bool) (l : List Char) : List Char :=
  ((l.dropWhile p).reverse.dropWhile p).reverse

/-- ASCII decimal digit test. -/
def isDigitB (c : Char) : Bool :=
  48 ≤ c.toNat && c.toNat ≤ 57

/-- Value of a list of ASCII decimal digits. -/
def natOfDigits (t : List Char) : Nat :=
  t.foldl (fun a c => a * 10 + (c.toNat - 48)) 0

/-- The numeric value of a character as a digit, if it is a valid digit for
the given base (`0`–`9`, then `a`–`z` / `A`–`Z` for values 10–35). -/
def digitVal? (base : Nat) (c : Char) : Option Nat :=
  if 48 ≤ c.toNat && c.toNat ≤ 57 then
    if c.toNat - 48 < base then some (c.toNat - 48) else none
  else if 97 ≤ c.toNat && c.toNat ≤ 122 then
    if c.toNat - 87 < base then some (c.toNat - 87) else none
  else if 65 ≤ c.toNat && c.toNat ≤ 90 then
    if c.toNat - 55 < base then some (c.toNat - 55) else none
  else none

/-- Continuation of a digit run, Python-style: further digits, with single
underscores permitted between digits.  Accumulates the value. -/
def digitsRest (base : Nat) (acc : Nat) : List Char → Option Nat
  | [] => some acc
  | c :: cs =>
    if c = '_' then
      match cs with
      | c2 :: cs2 =>
        match digitVal? base c2 with
        | some d => digitsRest base (acc * base + d) cs2
        | none => none
      | [] => none
    else
      match digitVal? base c with
      | some d => digitsRest base (acc * base + d) cs
      | none => none

/-- A full digit run: the first character must be a digit (Python rejects a
leading underscore). -/
def digitsRun? (base : Nat) : List Char → Option Nat
  | [] => none
  | c :: cs =>
    match digitVal? base c with
    | some d => digitsRest base d cs
    | none => none

/-- The part of a Python integer literal after the optional sign: an
optional `0b`/`0B` marker when the base is 2 (optionally followed by one
underscore), then a digit run.  (The source only ever passes bases 10 and
2; base markers of the other prefixed bases are not needed.) -/
def pyIntAfterSign (base : Nat) (cs : List Char) : Option Nat :=
  if base = 2 then
    match cs with
    | '0' :: b :: rest =>
      if b = 'b' || b = 'B' then
        match rest with
        | '_' :: r => digitsRun? 2 r
        | r => digitsRun? 2 r
      else digitsRun? 2 cs
    | _ => digitsRun? 2 cs
  else digitsRun? base cs

/-- Model of CPython `int(s, base)`: `none` where `ValueError` is raised. -/
def pyInt? (s : String) (base : Nat) : Option Int :=
  match stripBoth isWsChar s.data with
  | [] => none
  | c :: rest =>
    if c = '+' then (pyIntAfterSign base rest).map Int.ofNat
    else if c = '-' then (pyIntAfterSign base rest).map (fun n : Nat => -(n : Int))
    else (pyIntAfterSign base (c :: rest)).map Int.ofNat

/-- `str2int` from `nr-maser-mon.py`: `int(s, base)` with the `ValueError`
handler substituting `-1`.  The source's `base` parameter defaults to 10;
call sites here always pass the base explicitly. -/
def str2int (s : String) (base : Nat) : Int :=
  (pyInt? s base).getD (-1)

/-- Maximal decimal digit run with underscore separators; returns the
accumulated value, the number of digits consumed and the unconsumed rest
(a dangling underscore is left unconsumed, making the caller fail). -/
def takeDigitRun (base : Nat) (acc : Nat) (ndig : Nat) :
    List Char → Nat × Nat × List Char
  | [] => (acc, ndig, [])
  | c :: cs =>
    if c = '_' then
      match cs with
      | c2 :: cs2 =>
        match digitVal? base c2 with
        | some d => takeDigitRun base (acc * base + d) (ndig + 1) cs2
        | none => (acc, ndig, c :: cs)
      | [] => (acc, ndig, c :: cs)
    else
      match digitVal? base c with
      | some d => takeDigitRun base (acc * base + d) (ndig + 1) cs
      | none => (acc, ndig, c :: cs)

/-- Exponent suffix of a Python float literal (after `e`/`E`). -/
def pyFloatExpAfterE (m : Rat) (cs : List Char) : Option Rat :=
  let (neg, cs2) :=
    match cs with
    | '+' :: r => (false, r)
    | '-' :: r => (true, r)
    | r => (false, r)
  let (e, ne, rest) := takeDigitRun 10 0 0 cs2
  if ne = 0 || rest ≠ [] then none
  else some (if neg then m / (10 : Rat) ^ e else m * (10 : Rat) ^ e)

/-- Optional exponent part of a Python float literal. -/
def pyFloatExpPart (m : Rat) : List Char → Option Rat
  | [] => some m
  | 'e' :: rest => pyFloatExpAfterE m rest
  | 'E' :: rest => pyFloatExpAfterE m rest
  | _ => none

/-- The part of a Python float literal after the optional sign:
`digits [. digits] [exp]` or `. digits [exp]`. -/
def pyFloatAfterSign (cs : List Char) : Option Rat :=
  let (ip, ni, rest) := takeDigitRun 10 0 0 cs
  match rest with
  | '.' :: rest2 =>
    let (fp, nf, rest3) := takeDigitRun 10 0 0 rest2
    if ni = 0 && nf = 0 then none
    else pyFloatExpPart ((ip : Rat) + (fp : Rat) / (10 : Rat) ^ nf) rest3
  | _ =>
    if ni = 0 then none
    else pyFloatExpPart (ip : Rat) rest

/-- Model of CPython `float(s)` restricted to finite decimal literals:
`none` where `ValueError` is raised. -/
def pyFloat? (s : String) : Option Rat :=
  match stripBoth isWsChar s.data with
  | [] => none
  | c :: rest =>
    if c = '+' then pyFloatAfterSign rest
    else if c = '-' then (pyFloatAfterSign rest).map Neg.neg
    else pyFloatAfterSign (c :: rest)

/-- `str2float` from `nr-maser-mon.py`: `float(s)` with the `ValueError`
handler substituting `-1`. -/
def str2float (s : String) : Rat :=
  (pyFloat? s).getD (-1)

/-! ## Metric samples and Prometheus formatting -/

/-- A Python value carried by a metric sample: the source produces `int`
values (including the sentinel `-1`) and `float` values. -/
inductive PyVal
  | vint (i : Int)
  | vfloat (q : Rat)
deriving DecidableEq, Repr

/-- One metric sample, as assembled by a `format_metric` call: a metric
name, a value (the constant `1` for label-only calls) and a label set. -/
structure Sample where
  name : String
  value : PyVal
  labels : List (String × String)
deriving DecidableEq, Repr

/-- The smallest exponent `k` with `den ∣ 10 ^ k`, when one exists below
the searched bound (it always does for values produced by `pyFloat?`). -/
def fracDigitCount (den : Nat) : Option Nat :=
  (List.range (den + 1)).find? (fun k => 10 ^ k % den = 0)

/-- Drop trailing `'0'` characters. -/
def stripTrailingZeros (l : List Char) : List Char :=
  (l.reverse.dropWhile (fun c => c = '0')).reverse

/-- Decimal rendering of a rational, following Python's float `repr` for
exactly-decimal values of moderate magnitude (one fractional digit is
always kept, as in `1.0`).  Scientific notation for extreme magnitudes is
not reproduced; no claim concerns rendered digits of specific floats. -/
def ratRepr (q : Rat) : String :=
  match fracDigitCount q.den with
  | some k =>
    let n10 := q.num.natAbs * 10 ^ k / q.den
    let ipart := n10 / 10 ^ k
    let ds := (toString (n10 % 10 ^ k)).data
    let frac0 := List.replicate (k - ds.length) '0' ++ ds
    let frac1 := stripTrailingZeros frac0
    let frac2 := if frac1 = [] then ['0'] else frac1
    (if q.num < 0 then "-" else "") ++ toString ipart ++ "." ++ ⟨frac2⟩
  | none => toString q.num ++ "/" ++ toString q.den

/-- Python `str()` of a sample value, as interpolated by `format_metric`. -/
def pyValStr : PyVal → String
  | .vint i => toString i
  | .vfloat q => ratRepr q

/-- The source's metric-name prefix constant (`metrics_prefix` = "maser"
in `nr-maser-mon.py`). -/
def metrics_pfx : String := "maser"

/-- `format_metric` from `nr-maser-mon.py`: render one exposition line
`{pfx}_{name}{labels} {value}\n`, with labels as comma-space separated
`name="value"` pairs in braces.  The source's defaults (`value=1`,
`labels={}`) are passed explicitly by the callers modelled here. -/
def format_metric (metric_name : String) (value : PyVal)
    (labels : List (String × String)) : String :=
  let labels_list := labels.map (fun lv => lv.1 ++ "=\"" ++ lv.2 ++ "\"")
  let labels_string := String.intercalate ", " labels_list
  let labels_string2 :=
    if labels_string ≠ "" then "\x7b" ++ labels_string ++ "\x7d"
    else labels_string
  metrics_pfx ++ "_" ++ metric_name ++ labels_string2 ++ " " ++ pyValStr value ++ "\n"

/-- The exposition text a list of samples serializes to (the
`data_string` accumulated by the parser functions). -/
def serialize_samples (l : List Sample) : String :=
  String.join (l.map (fun s => format_metric s.name s.value s.labels))

/-- A sample produced by a `format_metric` call that passes only labels and
leaves the value at its constant default `1`. -/
def isLabelSample (s : Sample) : Bool :=
  !s.labels.isEmpty && s.value == PyVal.vint 1

/-! ## The analog channel catalog and frame classification -/

/-- `analog_chan_sets` from `nr-maser-mon.py`, as an ordered association
list (Python dicts iterate in insertion order). -/
def analog_chan_sets : List (String × List String) := [
  ("VOLTAGES", ["  p28  ", "  p18  ", "  p5   ", "  n18  ", "VACION ", "THRMREF", "  p00  ", " p2 REF"]),
  ("BUFFERS ", ["RCVR1  ", "TRANS  ", "SYNTH  ", "DIST   ", "  1    ", "  2    ", "  3    ", "  4    "]),
  ("MULT SEN", ["1p4 GHZ", "400KHZ ", "200MRC ", "20MHZ  ", "200MRF ", "200MLP ", "20 MMLT", "10 REF "]),
  ("CURRENTS", ["  p28  ", "BATCHG ", "VACPMP ", "SOURCE ", "STSEL  ", "H2PUR  "]),
  ("HEATERS ", [" RCVR  ", "MNCYL  ", "LOSUP  ", "OUTEL  ", "  CAV  ", "GAUGE  "]),
  ("CONTROL ", ["MNCRSE ", "UPNECK ", "LONECK ", "MNFINE ", "UPMAIN ", "LOMAIN "]),
  (" MISC   ", [" PK PH ", "  VCO  ", "   IF  ", "PRESS  ", " 1MHZ  ", " GAIN  ", "OFFSET ", "RAW REF"]),
  (" TEMP   ", ["SUP PLT", " RCVR  ", "  MAIN ", "TOPCAB ", "LOWCAB ", "OUTEL  ", " CAV LF", " CAV RT"])]

/-- The catalog keys in iteration order. -/
def analogKeys : List String := analog_chan_sets.map Prod.fst

/-- Catalog lookup (`analog_chan_sets[key]`). -/
def analogLookup (k : String) : Option (List String) :=
  (analog_chan_sets.find? (fun kv => kv.1 == k)).map Prod.snd

/-- Substring containment, Python's `needle in hay`. -/
def strContainsSub (hay needle : String) : Bool :=
  (List.range (hay.length + 1)).any (fun i => needle.data.isPrefixOf (hay.data.drop i))

/-- The classification a frame receives in `detect_metric_line`. -/
inductive LineClass
  | status1
  | status2
  | analog (setId : String)
  | unrecognized
deriving DecidableEq, Repr

/-- `detect_metric_line` from `nr-maser-mon.py`: substring tests in fixed
priority order; the analog branch takes the first catalog key (in
iteration order) contained in the line.  (All catalog keys are nonempty,
so the source's truthiness test on the `next(..., False)` result
coincides with the `Option` match here.) -/
def detect_metric_line (line : String) : LineClass :=
  if strContainsSub line "SYN" then .status1
  else if strContainsSub line "DGSW" then .status2
  else
    match analogKeys.find? (fun s => strContainsSub line s) with
    | some k => .analog k
    | none => .unrecognized

/-! ## The status-line-1 timestamp -/

/-- Whitespace-separated tokens of a character list. -/
def wsSplit (l : List Char) : List (List Char) :=
  (l.splitOnP isWsChar).filter (fun t => !t.isEmpty)

/-- Value of a nonempty all-decimal-digit token, `none` otherwise. -/
def decVal? (t : List Char) : Option Nat :=
  if t.isEmpty then none
  else if t.all isDigitB then some (natOfDigits t)
  else none

/-- Days from 0001-01-01 to January 1 of year `y` (proleptic Gregorian;
`y ≥ 1`). -/
def daysSinceYear1 (y : Nat) : Nat :=
  365 * (y - 1) + (y - 1) / 4 + (y - 1) / 400 - (y - 1) / 100

/-- Days from the Unix epoch 1970-01-01 to January 1 of year `y`. -/
def epochDaysJan1 (y : Nat) : Int :=
  (daysSinceYear1 y : Int) - 719162

/-- Model of `datetime.strptime(t, "%y %j %H %M %S %z").timestamp()` for
the status-line-1 timestamp, where `%z` always receives the appended
literal `+0000`: Unix epoch seconds on success, `none` where CPython
raises `ValueError`.  Tokens are taken as whitespace-separated runs; for
this format every token is followed by mandatory whitespace, so CPython's
regex accepts exactly such inputs too.  Token constraints mirror the
`_strptime` patterns: `%y` exactly two digits (00–68 mapping to
2000–2068, 69–99 to 1969–1999), `%j` 1–366 in up to three digits, `%H`
0–23, `%M` 0–59; seconds 60/61 pass the `%S` pattern but make the
`datetime` constructor raise, so the bound collapses to 0–59.  Day 366 of
a common year rolls forward into the next year, as CPython's ordinal
arithmetic does. -/
def strptimeStatus1 (t : String) : Option Int :=
  match t.data with
  | [] => none
  | c :: _ =>
    if isWsChar c then none
    else
      match wsSplit t.data with
      | [ty, tj, th, tm, ts, tz] =>
        if tz = ['+', '0', '0', '0', '0'] then
          match decVal? ty, decVal? tj, decVal? th, decVal? tm, decVal? ts with
          | some y, some j, some h, some m, some s =>
            if ty.length = 2 ∧ tj.length ≤ 3 ∧ th.length ≤ 2 ∧ tm.length ≤ 2
                ∧ ts.length ≤ 2 ∧ 1 ≤ j ∧ j ≤ 366 ∧ h ≤ 23 ∧ m ≤ 59 ∧ s ≤ 59 then
              let year := if y ≤ 68 then 2000 + y else 1900 + y
              some ((epochDaysJan1 year + ((j - 1 : Nat) : Int)) * 86400
                + ((h * 3600 + m * 60 + s : Nat) : Int))
            else none
          | _, _, _, _, _ => none
        else none
      | _ => none

/-- The `utc_time` value of status line 1: the `timestamp()` float on
success, the int `-1` on the caught `ValueError`. -/
def maser_time_val (line : String) : PyVal :=
  match strptimeStatus1 (pySlice line 9 24 ++ " +0000") with
  | some secs => .vfloat (secs : Rat)
  | none => .vint (-1)

/-! ## The three field decoders -/

/-- `parse_status_line1` from `nr-maser-mon.py`.  The result is `none`
when the decode aborts with an uncaught `IndexError`, which happens
exactly when one of the single-character accesses at offsets 25, 26, 27,
30, 31, 38, 63 is out of range; slice fields and the guarded timestamp
and `str2int` conversions have no failure mode.  On success the list
holds the samples in emission order. -/
def parse_status_line1 (line : String) : Option (List Sample) := do
  let c25 ← pyCharAt? line 25
  let c26 ← pyCharAt? line 26
  let c27 ← pyCharAt? line 27
  let c30 ← pyCharAt? line 30
  let c31 ← pyCharAt? line 31
  let c38 ← pyCharAt? line 38
  let c63 ← pyCharAt? line 63
  some [
    ⟨"info", .vint 1, [("name", pySlice line 0 8)]⟩,
    ⟨"utc_time", maser_time_val line, []⟩,
    ⟨"autotuner_status_raw", .vint 1, [("raw", pySlice line 25 45)]⟩,
    ⟨"autotuner_mode", .vint 1, [("mode", String.singleton c25)]⟩,
    ⟨"autotuner_h2flux_state", .vint 1, [("state", String.singleton c26)]⟩,
    ⟨"autotuner_measurement_state", .vint 1, [("state", String.singleton c27)]⟩,
    ⟨"autotuner_measurement_count_seconds", .vint (str2int (pySlice line 28 30) 10), []⟩,
    ⟨"autotuner_h2flux_ctrl_device", .vint 1, [("device", String.singleton c30)]⟩,
    ⟨"autotuner_sign", .vint 1, [("sign", String.singleton c31)]⟩,
    ⟨"autotuner_max_diff", .vint (str2int (pySlice line 32 38) 10), []⟩,
    ⟨"autotuner_shift_direction", .vint 1, [("direction", String.singleton c38)]⟩,
    ⟨"autotuner_bit_shift", .vint (str2int (pySlice line 39 41) 10), []⟩,
    ⟨"autotuner_dac1_chan", .vint (str2int (pySlice line 41 43) 10), []⟩,
    ⟨"autotuner_dac2_chan", .vint (str2int (pySlice line 43 45) 10), []⟩,
    ⟨"autotuner_measurement_msb", .vint (str2int (pySlice line 46 48) 10), []⟩,
    ⟨"autotuner_register_msb", .vint (str2int (pySlice line 49 51) 10), []⟩,
    ⟨"autotuner_register_number", .vint (str2int (pySlice line 52 58) 10), []⟩,
    ⟨"synthesizer_mode", .vint 1, [("mode", String.singleton c63)]⟩,
    ⟨"synthesizer_number_a", .vint (str2int (pySlice line 65 69) 10), []⟩,
    ⟨"synthesizer_number_b", .vint (str2int (pySlice line 70 74) 10), []⟩,
    ⟨"synthesizer_number_c", .vint (str2int (pySlice line 75 78) 10), []⟩]

/-- `parse_status_line2` from `nr-maser-mon.py`: seven integer fields, all
from slices, so the decode is total. -/
def parse_status_line2 (line : String) : List Sample := [
  ⟨"autotuner_wait_interval_seconds", .vint (str2int (pySlice line 0 3) 10), []⟩,
  ⟨"autotuner_count_seconds", .vint (str2int (pySlice line 5 9) 10), []⟩,
  ⟨"digital_status_word", .vint (str2int (pySlice line 15 27) 2), []⟩,
  ⟨"dac1_channel", .vint (str2int (pySlice line 35 37) 10), []⟩,
  ⟨"dac1_msb", .vint (str2int (pySlice line 38 40) 10), []⟩,
  ⟨"dac2_channel", .vint (str2int (pySlice line 41 43) 10), []⟩,
  ⟨"dac2_msb", .vint (str2int (pySlice line 44 46) 10), []⟩]

/-- `s.strip().replace(" ", "_").lower()`, the name normalization applied
to analog set and channel identifiers (lower-casing is per character, as
Python's `str.lower` is for this ASCII catalog). -/
def normName (s : String) : String :=
  String.mk (((stripBoth isWsChar s.data).map
    (fun c => if c = ' ' then '_' else c)).map Char.toLower)

/-- `parse_analog_chan_line` from `nr-maser-mon.py`: one float sample per
channel slot, the value of slot `i` read from `[15+8i, 15+8i+6)`, except
that a channel normalizing to `"if"` is re-read from `[30, 37)`.  The
catalog access is modelled with a lookup defaulting to the empty slot
list; every caller passes a catalog key. -/
def parse_analog_chan_line (line : String) (analog_set_id : String) : List Sample :=
  let chans := (analogLookup analog_set_id).getD []
  let analog_set_name := normName analog_set_id
  chans.enum.map (fun ic =>
    let chan_name := normName ic.2
    let index_lower := 15 + ic.1 * 8
    let index_upper := index_lower + 6
    let chan_val := str2float (pySlice line index_lower index_upper)
    let chan_val2 := if chan_name = "if" then str2float (pySlice line 30 37) else chan_val
    Sample.mk (analog_set_name ++ "_" ++ chan_name) (.vfloat chan_val2) [])

/-- The decode-and-publish dispatch performed for one completed frame:
which metric groups get written, with which serialized content.  `none`
models an uncaught exception escaping `detect_metric_line`; an
unrecognized frame is dropped, producing no writes and no error. -/
def process_line (line : String) : Option (List (String × String)) :=
  match detect_metric_line line with
  | .status1 => (parse_status_line1 line).map
      (fun ss => [("status1", serialize_samples ss)])
  | .status2 => some [("status2", serialize_samples (parse_status_line2 line))]
  | .analog k => some [(normName k, serialize_samples (parse_analog_chan_line line k))]
  | .unrecognized => some []

/-! ## Line framers -/

/-- One byte step of the newline-policy framer in `relay_maser_to_nrcan`:
append the decoded character to the buffer; on `\n`, emit the buffer with
the characters `\r`/`\n` stripped from BOTH ends (Python `strip("\r\n")`)
and clear the buffer. -/
def feedNewline (buf : String) (c : Char) : Option String × String :=
  let buf2 := buf.push c
  if c = '\n' then
    (some ⟨stripBoth (fun a => a = '\r' || a = '\n') buf2.data⟩, "")
  else (none, buf2)

/-- One byte step of the sentinel-policy framer in `relay_nrcan_to_maser`
and `relay_maser_requests`: append; on `F` or `D`, emit the buffer with
the terminator included and clear the buffer. -/
def feedSentinel (buf : String) (c : Char) : Option String × String :=
  let buf2 := buf.push c
  if c = 'F' ∨ c = 'D' then (some buf2, "") else (none, buf2)

/-- Feed a character sequence through a framer step, collecting the
emitted frames in order together with the final buffer. -/
def feedAll (step : String → Char → Option String × String) (buf : String) :
    List Char → List String × String
  | [] => ([], buf)
  | c :: cs =>
    let r := step buf c
    let rest := feedAll step r.2 cs
    (match r.1 with
     | some fr => fr :: rest.1
     | none => rest.1, rest.2)

/-- Run the newline-policy framer over a byte string. -/
def runNewline (buf : String) (s : String) : List String × String :=
  feedAll feedNewline buf s.data

/-- Run the sentinel-policy framer over a byte string. -/
def runSentinel (buf : String) (s : String) : List String × String :=
  feedAll feedSentinel buf s.data

/-! ## The file-system model and the publish protocol -/

/-- A file system: file contents by path. -/
def Fs : Type := String → Option String

/-- An atomic file-system operation: replacing one file's contents, or the
single `os.rename` syscall. -/
inductive FsOp
  | setFile (path : String) (content : String)
  | rename (src : String) (dst : String)

/-- Effect of one operation. -/
def applyOp (fs : Fs) : FsOp → Fs
  | .setFile p c => fun q => if q = p then some c else fs q
  | .rename src dst =>
    fun q => if q = dst then fs src else if q = src then none else fs q

/-- Effect of an operation sequence. -/
def applyOps (ops : List FsOp) (fs : Fs) : Fs :=
  ops.foldl applyOp fs

/-- The source's `metrics_dir` constant. -/
def metrics_dir : String := "/var/lib/node_exporter/textfile_collector/"

/-- The final path of a metric group's file. -/
def final_path (file_id : String) : String :=
  metrics_dir ++ metrics_pfx ++ "_" ++ file_id ++ ".prom"

/-- The temporary path `write_metrics` writes to first. -/
def temporary_path (file_id : String) : String :=
  final_path file_id ++ ".$$"

/-- The first `n` characters of a string. -/
def strTake (s : String) (n : Nat) : String :=
  ⟨s.data.take n⟩

/-- The publish protocol of `write_metrics` as a file-system operation
sequence: the temporary file passes through every prefix of the data
(`n = 0` modelling the truncating open, later steps the possibly
incremental write), and is then renamed onto the final path in a single
operation. -/
def write_metrics_trace (file_id data_string : String) : List FsOp :=
  ((List.range (data_string.length + 1)).map
      (fun n => FsOp.setFile (temporary_path file_id) (strTake data_string n)))
    ++ [FsOp.rename (temporary_path file_id) (final_path file_id)]

/-- Publishing a sample list for a group: serialize, write to the
temporary file, rename. -/
def publishOps (file_id : String) (samples : List Sample) : List FsOp :=
  write_metrics_trace file_id (serialize_samples samples)

/-! ## Spec-side definitions for the padded-numeral claim

These two definitions are modelled from the claim's words, not from the
source, to be compared with the source's parsers: an optionally
sign-prefixed numeral surrounded by spaces, together with its value. -/

/-- Modelled from the claim's words: an optionally sign-prefixed base-10
integer numeral surrounded by spaces, with its integer value. -/
def paddedIntVal? (s : String) : Option Int :=
  match stripBoth (fun c => c = ' ') s.data with
  | [] => none
  | c :: ds =>
    if c = '+' then (decVal? ds).map Int.ofNat
    else if c = '-' then (decVal? ds).map (fun n : Nat => -(n : Int))
    else (decVal? (c :: ds)).map Int.ofNat

/-- Value of a decimal numeral `digits [. digits]` (either side of the
point may be empty, but not both; no exponent). -/
def decimalVal? (t : List Char) : Option Rat :=
  match t.dropWhile (fun c => c ≠ '.') with
  | [] => (decVal? (t.takeWhile (fun c => c ≠ '.'))).map (fun n : Nat => (n : Rat))
  | _ :: fp =>
    if ((t.takeWhile (fun c => c ≠ '.')).isEmpty && fp.isEmpty) = true then none
    else if ((t.takeWhile (fun c => c ≠ '.')).all isDigitB && fp.all isDigitB) = true then
      some ((natOfDigits (t.takeWhile (fun c => c ≠ '.')) : Rat)
        + (natOfDigits fp : Rat) / (10 : Rat) ^ fp.length)
    else none

/-- Modelled from the claim's words: an optionally sign-prefixed decimal
numeral surrounded by spaces, with its rational value. -/
def paddedFloatVal? (s : String) : Option Rat :=
  match stripBoth (fun c => c = ' ') s.data with
  | [] => none
  | c :: ds =>
    if c = '+' then decimalVal? ds
    else if c = '-' then (decimalVal? ds).map Neg.neg
    else decimalVal? (c :: ds)

/-! ## Helper lemmas: the file-system model -/

theorem applyOps_append (l1 l2 : List FsOp) (fs : Fs) :
    applyOps (l1 ++ l2) fs = applyOps l2 (applyOps l1 fs) := by
  simp [applyOps, List.foldl_append]

theorem applyOps_cons (op : FsOp) (ops : List FsOp) (fs : Fs) :
    applyOps (op :: ops) fs = applyOps ops (applyOp fs op) := rfl

theorem applyOps_map_setFile_ne {β : Type} (p q : String) (h : q ≠ p)
    (f : β → String) (cs : List β) :
    ∀ fs : Fs, applyOps (cs.map (fun n => FsOp.setFile p (f n))) fs q = fs q := by
  induction cs with
  | nil => intro fs; rfl
  | cons c cs ih =>
    intro fs
    rw [List.map_cons, applyOps_cons, ih]
    simp [applyOp, h]

theorem strTake_full (s : String) : strTake s s.length = s := by
  cases s with
  | mk data => simp [strTake, String.length]

theorem applyOps_writes_last (p data : String) (fs : Fs) :
    applyOps ((List.range (data.length + 1)).map
      (fun n => FsOp.setFile p (strTake data n))) fs p = some data := by
  rw [List.range_succ, List.map_append, applyOps_append]
  simp [applyOps, applyOp, strTake_full]

theorem temporary_ne_final (fid : String) :
    temporary_path fid ≠ final_path fid := by
  intro h
  have hlen := congrArg String.length h
  rw [temporary_path, String.length_append] at hlen
  have h3 : (".$$" : String).length = 3 := rfl
  omega

theorem write_metrics_final (fid data : String) (fs : Fs) :
    applyOps (write_metrics_trace fid data) fs (final_path fid) = some data := by
  rw [write_metrics_trace, applyOps_append]
  have h1 : applyOps [FsOp.rename (temporary_path fid) (final_path fid)]
      (applyOps ((List.range (data.length + 1)).map
        (fun n => FsOp.setFile (temporary_path fid) (strTake data n))) fs)
      (final_path fid)
      = applyOps ((List.range (data.length + 1)).map
        (fun n => FsOp.setFile (temporary_path fid) (strTake data n))) fs
        (temporary_path fid) := by
    simp [applyOps, applyOp]
  rw [h1, applyOps_writes_last]

theorem write_metrics_trace_length (fid data : String) :
    (write_metrics_trace fid data).length = data.length + 2 := by
  simp [write_metrics_trace]

theorem write_metrics_step (fid data : String) (fs : Fs) (i : Nat) :
    applyOps ((write_metrics_trace fid data).take i) fs (final_path fid)
        = fs (final_path fid)
    ∨ applyOps ((write_metrics_trace fid data).take i) fs (final_path fid)
        = some data := by
  by_cases hi : i ≤ data.length + 1
  · left
    rw [write_metrics_trace, List.take_append_of_le_length (by simpa using hi),
      ← List.map_take]
    exact applyOps_map_setFile_ne _ _ (Ne.symm (temporary_ne_final fid)) _ _ fs
  · right
    rw [List.take_of_length_le (by rw [write_metrics_trace_length]; omega)]
    exact write_metrics_final fid data fs

/-- C1: every publish of a metric group writes the full serialized text to
a temporary file colocated with the final path (`final ++ ".$$"`, a
distinct path in the same directory) and then renames it onto the final
path; at every intermediate point of the protocol an external reader of
the final path sees either the untouched previous content or the complete
new content, and after the protocol the final path holds exactly the new
content. -/
theorem write_metrics_atomic (fid data : String) (fs : Fs) (i : Nat) :
    (applyOps ((write_metrics_trace fid data).take i) fs (final_path fid)
        = fs (final_path fid)
      ∨ applyOps ((write_metrics_trace fid data).take i) fs (final_path fid)
        = some data)
    ∧ applyOps (write_metrics_trace fid data) fs (final_path fid) = some data
    ∧ temporary_path fid = final_path fid ++ ".$$"
    ∧ temporary_path fid ≠ final_path fid :=
  ⟨write_metrics_step fid data fs i, write_metrics_final fid data fs, rfl,
    temporary_ne_final fid⟩

/-- C8: publish is deterministic and idempotent per group: whatever the
prior file-system state, publishing the same ordered sample list leaves
the group's final file with the same bytes, namely the serialization of
the samples; repeated publishes with identical input therefore produce
byte-identical content.  (No definition in this pipeline reads a clock:
even the status-1 timestamp field is a pure function of the frame.) -/
theorem publish_deterministic (fid : String) (samples : List Sample) (fs1 fs2 : Fs) :
    applyOps (publishOps fid samples) fs1 (final_path fid)
      = applyOps (publishOps fid samples) fs2 (final_path fid)
    ∧ applyOps (publishOps fid samples) fs1 (final_path fid)
      = some (serialize_samples samples) := by
  constructor
  · rw [publishOps, write_metrics_final, write_metrics_final]
  · exact write_metrics_final fid (serialize_samples samples) fs1

/-! ## Helper lemmas: list searching and both-end stripping -/

theorem find?_split {α : Type} (p : α → Bool) :
    ∀ (l : List α) (a : α), l.find? p = some a →
      p a = true ∧ ∃ l1 l2, l = l1 ++ a :: l2 ∧ ∀ b ∈ l1, p b = false := by
  intro l
  induction l with
  | nil => intro a h; simp [List.find?] at h
  | cons x xs ih =>
    intro a h
    by_cases hx : p x = true
    · rw [List.find?_cons_of_pos _ hx] at h
      cases h
      exact ⟨hx, [], xs, rfl, by simp⟩
    · rw [List.find?_cons_of_neg _ (by simpa using hx)] at h
      obtain ⟨hpa, l1, l2, heq, hall⟩ := ih a h
      refine ⟨hpa, x :: l1, l2, by rw [heq, List.cons_append], ?_⟩
      intro b hb
      rcases List.mem_cons.mp hb with hb | hb
      · subst hb; simpa using hx
      · exact hall b hb

theorem dropWhile_head?_false {α : Type} {p : α → Bool} :
    ∀ (l : List α) (a : α), (l.dropWhile p).head? = some a → p a = false := by
  intro l
  induction l with
  | nil => intro a h; simp at h
  | cons x xs ih =>
    intro a h
    rw [List.dropWhile_cons] at h
    by_cases hx : p x = true
    · rw [if_pos hx] at h
      exact ih a h
    · rw [if_neg hx] at h
      cases h
      simpa using hx

theorem dropWhile_append_last {α : Type} {p : α → Bool} {c : α} (hc : p c = false) :
    ∀ xs : List α, (xs ++ [c]).dropWhile p = xs.dropWhile p ++ [c] := by
  intro xs
  induction xs with
  | nil => simp [List.dropWhile_cons, hc]
  | cons x t ih =>
    rw [List.cons_append, List.dropWhile_cons, List.dropWhile_cons]
    by_cases hx : p x = true
    · rw [if_pos hx, if_pos hx, ih]
    · rw [if_neg hx, if_neg hx, List.cons_append]

theorem rstrip_head? {α : Type} (p : α → Bool) (m : List α)
    (hm : ∀ a, m.head? = some a → p a = false) :
    ((m.reverse.dropWhile p).reverse).head? = m.head? := by
  cases m with
  | nil => simp
  | cons c t =>
    have hpc : p c = false := hm c rfl
    rw [List.reverse_cons, dropWhile_append_last hpc, List.reverse_append]
    rfl

theorem stripBoth_head?_eq (p : Char → Bool) (l : List Char) :
    (stripBoth p l).head? = (l.dropWhile p).head? := by
  unfold stripBoth
  exact rstrip_head? p (l.dropWhile p) (dropWhile_head?_false l)

theorem stripBoth_head?_false (p : Char → Bool) (l : List Char) (a : Char)
    (h : (stripBoth p l).head? = some a) : p a = false := by
  rw [stripBoth_head?_eq] at h
  exact dropWhile_head?_false l a h

theorem stripBoth_getLast?_false (p : Char → Bool) (l : List Char) (a : Char)
    (h : (stripBoth p l).getLast? = some a) : p a = false := by
  unfold stripBoth at h
  rw [List.getLast?_reverse] at h
  exact dropWhile_head?_false _ a h

theorem stripBoth_contiguous (p : Char → Bool) (l : List Char) :
    stripBoth p l <:+: l := by
  unfold stripBoth
  have h2 : ((l.dropWhile p).reverse.dropWhile p).reverse <+: l.dropWhile p := by
    have h3 : (l.dropWhile p).reverse.dropWhile p <:+ (l.dropWhile p).reverse :=
      List.dropWhile_suffix p
    have h4 := List.reverse_prefix.mpr h3
    rwa [List.reverse_reverse] at h4
  exact h2.isInfix.trans (List.dropWhile_suffix p).isInfix

/-! ## Claim C3: classification priority -/

/-- C3: classification follows the fixed priority order: any frame
containing "SYN" is status line 1 (whatever else it contains); otherwise
"DGSW" makes it status line 2; otherwise the first catalog key (in
iteration order) contained in the frame selects the analog line (any
earlier key is not contained in the frame); a frame containing none of
these is unrecognized, and processing an unrecognized frame publishes
nothing and raises nothing. -/
theorem classify_priority :
    (∀ line, strContainsSub line "SYN" = true →
      detect_metric_line line = .status1)
    ∧ (∀ line, strContainsSub line "SYN" = false →
        strContainsSub line "DGSW" = true → detect_metric_line line = .status2)
    ∧ (∀ line k, detect_metric_line line = .analog k →
        strContainsSub line k = true
        ∧ ∃ l1 l2, analogKeys = l1 ++ k :: l2
            ∧ ∀ k2 ∈ l1, strContainsSub line k2 = false)
    ∧ (∀ line, strContainsSub line "SYN" = false →
        strContainsSub line "DGSW" = false →
        (∀ k ∈ analogKeys, strContainsSub line k = false) →
        detect_metric_line line = .unrecognized)
    ∧ (∀ line, detect_metric_line line = .unrecognized →
        process_line line = some []) := by
  refine ⟨?_, ?_, ?_, ?_, ?_⟩
  · intro line h
    simp [detect_metric_line, h]
  · intro line h1 h2
    simp [detect_metric_line, h1, h2]
  · intro line k h
    unfold detect_metric_line at h
    by_cases h1 : strContainsSub line "SYN" = true
    · simp [h1] at h
    · rw [Bool.not_eq_true] at h1
      by_cases h2 : strContainsSub line "DGSW" = true
      · simp [h1, h2] at h
      · rw [Bool.not_eq_true] at h2
        simp [h1, h2] at h
        cases hf : analogKeys.find? (fun s => strContainsSub line s) with
        | none => rw [hf] at h; simp at h
        | some k2 =>
          rw [hf] at h
          simp at h
          subst h
          exact find?_split _ _ _ hf
  · intro line h1 h2 h3
    have hf : analogKeys.find? (fun s => strContainsSub line s) = none :=
      List.find?_eq_none.mpr (fun x hx => by simp [h3 x hx])
    simp [detect_metric_line, h1, h2, hf]
  · intro line h
    simp [process_line, h]

/-- Witness for the classification theorem at concrete frames. -/
theorem classify_priority_witness :
    detect_metric_line "xSYNx DGSW CURRENTS" = .status1
    ∧ detect_metric_line "x DGSW CURRENTS" = .status2
    ∧ strContainsSub "abCURRENTScd" "CURRENTS" = true
    ∧ detect_metric_line "plain text" = .unrecognized
    ∧ process_line "plain text" = some [] :=
  ⟨classify_priority.1 _ (by decide),
   classify_priority.2.1 _ (by decide) (by decide),
   (classify_priority.2.2.1 "abCURRENTScd" "CURRENTS" (by decide)).1,
   classify_priority.2.2.2.1 _ (by decide) (by decide) (by decide),
   classify_priority.2.2.2.2 _ (by decide)⟩

/-! ## Claim C5: the newline terminator policy -/

/-- C5 counterexample: Python's `strip("\r\n")` strips from BOTH ends, so
a carriage return at the START of the buffer is also removed, contrary to
the claim that only trailing CR/LF are stripped: feeding "\rX\n" emits
the frame "X", not "\rX". -/
theorem newline_strip_counterexample :
    runNewline "" "\rX\n" = (["X"], "")
    ∧ runNewline "" "\rX\n" ≠ (["\rX"], "") := by decide

/-- C5 amended: when '\n' is fed, the emitted frame is the accumulated
buffer with CR/LF characters stripped from BOTH ends (interior characters
unaffected: the frame is a contiguous infix of the buffer whose first and
last characters are not CR/LF), and the buffer is cleared; any other byte
only accumulates; feeding "Maser data\r\n" produces exactly the one frame
"Maser data". -/
theorem newline_policy_amended (buf : String) (c : Char) :
    (c ≠ '\n' → feedNewline buf c = (none, buf.push c))
    ∧ (feedNewline buf '\n').2 = ""
    ∧ (∀ fr, (feedNewline buf '\n').1 = some fr →
        fr.data <:+: (buf.push '\n').data
        ∧ (∀ a, fr.data.head? = some a → a ≠ '\r' ∧ a ≠ '\n')
        ∧ (∀ a, fr.data.getLast? = some a → a ≠ '\r' ∧ a ≠ '\n'))
    ∧ runNewline "" "Maser data\r\n" = (["Maser data"], "") := by
  refine ⟨?_, ?_, ?_, by decide⟩
  · intro h
    simp [feedNewline, h]
  · simp [feedNewline]
  · intro fr h
    simp [feedNewline] at h
    subst h
    refine ⟨stripBoth_contiguous _ _, ?_, ?_⟩
    · intro a ha
      have := stripBoth_head?_false _ _ a ha
      simpa using this
    · intro a ha
      have := stripBoth_getLast?_false _ _ a ha
      simpa using this

/-- Witness for the amended newline-policy theorem at concrete inputs. -/
theorem newline_policy_witness :
    feedNewline "AB" 'x' = (none, "ABx")
    ∧ ("A".data <:+: "A\r\n".data)
    ∧ runNewline "" "Maser data\r\n" = (["Maser data"], "") := by
  refine ⟨(newline_policy_amended "AB" 'x').1 (by decide), ?_,
    (newline_policy_amended "" 'a').2.2.2⟩
  have h := ((newline_policy_amended "A\r" '\n').2.2.1 "A" (by decide)).1
  simpa using h

/-! ## Claim C6: the sentinel terminator policy -/

/-- C6 counterexample: the interior 'D' of "CD3D" also terminates a frame
under the sentinel policy, so feeding "AB12F" then "CD3D" yields three
frames, not the claimed two. -/
theorem sentinel_frames_counterexample :
    (runSentinel "" ("AB12F" ++ "CD3D")).1 = ["AB12F", "CD", "3D"]
    ∧ (runSentinel "" ("AB12F" ++ "CD3D")).1 ≠ ["AB12F", "CD3D"] := by decide

/-- C6 amended: under the sentinel policy every decoded 'F' or 'D'
terminates a frame, so feeding "AB12F" then "CD3D" produces exactly three
frames — "AB12F", "CD" and "3D" — each retaining its terminator as its
final character, with an empty buffer after each run. -/
theorem sentinel_policy_amended :
    runSentinel "" "AB12F" = (["AB12F"], "")
    ∧ runSentinel "" "CD3D" = (["CD", "3D"], "")
    ∧ runSentinel "" ("AB12F" ++ "CD3D") = (["AB12F", "CD", "3D"], "")
    ∧ "AB12F".data.getLast? = some 'F'
    ∧ "CD".data.getLast? = some 'D'
    ∧ "3D".data.getLast? = some 'D' := by decide

/-! ## Helper lemmas: single-character access and status-line-1 totality -/

theorem pyCharAt?_isSome_iff (s : String) (i : Nat) :
    (pyCharAt? s i).isSome = true ↔ i < s.length := by
  cases s with
  | mk data =>
    rw [pyCharAt?, Option.isSome_iff_ne_none, ne_eq, List.get?_eq_none]
    simp [String.length]

theorem pyCharAt?_eq_some_of_lt {s : String} {i : Nat} (h : i < s.length) :
    ∃ c, pyCharAt? s i = some c :=
  Option.isSome_iff_exists.mp ((pyCharAt?_isSome_iff s i).mpr h)

theorem parse_status_line1_isSome_iff (line : String) :
    (parse_status_line1 line).isSome = true ↔ 64 ≤ line.length := by
  constructor
  · intro h
    rw [parse_status_line1] at h
    simp only [Option.bind_eq_bind] at h
    rcases e25 : pyCharAt? line 25 with _ | c25
    · rw [e25] at h; simp at h
    rw [e25, Option.some_bind] at h
    rcases e26 : pyCharAt? line 26 with _ | c26
    · rw [e26] at h; simp at h
    rw [e26, Option.some_bind] at h
    rcases e27 : pyCharAt? line 27 with _ | c27
    · rw [e27] at h; simp at h
    rw [e27, Option.some_bind] at h
    rcases e30 : pyCharAt? line 30 with _ | c30
    · rw [e30] at h; simp at h
    rw [e30, Option.some_bind] at h
    rcases e31 : pyCharAt? line 31 with _ | c31
    · rw [e31] at h; simp at h
    rw [e31, Option.some_bind] at h
    rcases e38 : pyCharAt? line 38 with _ | c38
    · rw [e38] at h; simp at h
    rw [e38, Option.some_bind] at h
    rcases e63 : pyCharAt? line 63 with _ | c63
    · rw [e63] at h; simp at h
    have h63 : (pyCharAt? line 63).isSome = true := by rw [e63]; rfl
    have := (pyCharAt?_isSome_iff line 63).mp h63
    omega
  · intro h
    obtain ⟨c25, e25⟩ := pyCharAt?_eq_some_of_lt (s := line) (i := 25) (by omega)
    obtain ⟨c26, e26⟩ := pyCharAt?_eq_some_of_lt (s := line) (i := 26) (by omega)
    obtain ⟨c27, e27⟩ := pyCharAt?_eq_some_of_lt (s := line) (i := 27) (by omega)
    obtain ⟨c30, e30⟩ := pyCharAt?_eq_some_of_lt (s := line) (i := 30) (by omega)
    obtain ⟨c31, e31⟩ := pyCharAt?_eq_some_of_lt (s := line) (i := 31) (by omega)
    obtain ⟨c38, e38⟩ := pyCharAt?_eq_some_of_lt (s := line) (i := 38) (by omega)
    obtain ⟨c63, e63⟩ := pyCharAt?_eq_some_of_lt (s := line) (i := 63) (by omega)
    rw [parse_status_line1, e25, e26, e27, e30, e31, e38, e63]
    rfl

/-! ## Claim C7: status-line-1 decode totality -/

/-- C7 counterexample: the frame "SYN" classifies as status line 1, yet
its decode aborts with an uncaught IndexError (offset 25 out of range),
so StatusLine1 decoding does not complete for every frame. -/
theorem status1_short_frame_counterexample :
    detect_metric_line "SYN" = .status1
    ∧ parse_status_line1 "SYN" = none
    ∧ process_line "SYN" = none := by decide

/-- C7 amended: a status-line-1 decode completes without raising exactly
when the frame is at least 64 characters long (so that every fixed
single-character label offset, the largest being 63, is in range); label
slice extraction has no failure mode, but the single-character label
accesses raise IndexError on shorter frames. -/
theorem status1_decode_totality (line : String) :
    (parse_status_line1 line).isSome = true ↔ 64 ≤ line.length :=
  parse_status_line1_isSome_iff line

/-- Witness for the totality theorem at a 78-character frame. -/
theorem status1_decode_totality_witness :
    (parse_status_line1
      "MASER  1 24 001 00 00 00 ABC12ab123456+1212340 12 123456 num A 1234 1234 123").isSome
      = true :=
  (status1_decode_totality _).mpr (by decide)

/-! ## Claim C2: parse failures yield the sentinel and never abort -/

/-- C2: a fixed-offset substring that fails to convert yields exactly the
sentinel `-1` — `str2int` and `str2float` are total, never propagating the
caught `ValueError` — and no parse failure aborts a decode or suppresses a
sample: status line 2 always emits its seven samples (the digital status
word present at value `-1` whenever its base-2 substring fails), an analog
line always emits one sample per catalog slot, and whether the
status-line-1 decode aborts depends only on the frame length (the
single-character label accesses), never on numeric parse failures. -/
theorem parse_failure_sentinel :
    (∀ s b, pyInt? s b = none → str2int s b = -1)
    ∧ (∀ s, pyFloat? s = none → str2float s = -1)
    ∧ (∀ line, (parse_status_line2 line).length = 7)
    ∧ (∀ line, pyInt? (pySlice line 15 27) 2 = none →
        Sample.mk "digital_status_word" (.vint (-1)) [] ∈ parse_status_line2 line)
    ∧ (∀ line sid chans, analogLookup sid = some chans →
        (parse_analog_chan_line line sid).length = chans.length)
    ∧ (∀ line, (parse_status_line1 line).isSome = true ↔ 64 ≤ line.length) := by
  refine ⟨?_, ?_, ?_, ?_, ?_, ?_⟩
  · intro s b h
    simp [str2int, h]
  · intro s h
    simp [str2float, h]
  · intro line
    rfl
  · intro line h
    have hv : str2int (pySlice line 15 27) 2 = -1 := by simp [str2int, h]
    rw [parse_status_line2, hv]
    exact List.mem_cons_of_mem _ (List.mem_cons_of_mem _ (List.mem_cons_self _ _))
  · intro line sid chans hl
    simp [parse_analog_chan_line, hl]
  · exact parse_status_line1_isSome_iff

/-- Witness for the sentinel theorem at concrete inputs. -/
theorem parse_failure_sentinel_witness :
    str2int "12 34" 10 = -1
    ∧ str2float "1.2.3" = -1
    ∧ Sample.mk "digital_status_word" (PyVal.vint (-1)) [] ∈ parse_status_line2 "DGSW data"
    ∧ (parse_analog_chan_line "" "CONTROL ").length = 6
    ∧ (parse_status_line1 "SYNC").isSome = false := by
  refine ⟨parse_failure_sentinel.1 "12 34" 10 (by decide),
    parse_failure_sentinel.2.1 "1.2.3" (by decide),
    parse_failure_sentinel.2.2.2.1 "DGSW data" (by decide), ?_, ?_⟩
  · rw [parse_failure_sentinel.2.2.2.2.1 ""
      "CONTROL " ["MNCRSE ", "UPNECK ", "LONECK ", "MNFINE ", "UPMAIN ", "LOMAIN "]
      (by decide)]
    rfl
  · have h := parse_failure_sentinel.2.2.2.2.2 "SYNC"
    have hlen : ¬64 ≤ ("SYNC" : String).length := by decide
    exact Bool.eq_false_iff.mpr (fun hh => hlen (h.mp hh))

/-! ## Claim C9: label samples of the status decoders -/

/-- C9 counterexample: a decoded status-line-2 frame emits no label
samples at all — in particular not exactly one info-style label sample. -/
theorem status2_no_label_counterexample :
    detect_metric_line "a DGSW b" = .status2
    ∧ (parse_status_line2 "a DGSW b").filter isLabelSample = []
    ∧ ((parse_status_line2 "a DGSW b").filter isLabelSample).length ≠ 1 := by decide

/-- C9 amended: a successfully decoded status-line-1 frame emits exactly
one sample named "info" (the constant-value maser-name label sample) and
nine constant-value label samples in total; a decoded status-line-2 frame
emits no label samples. -/
theorem status_label_samples :
    (∀ line ss, parse_status_line1 line = some ss →
      (ss.filter (fun s => s.name == "info")).length = 1
      ∧ (ss.filter isLabelSample).length = 9)
    ∧ (∀ line, (parse_status_line2 line).filter isLabelSample = []) := by
  constructor
  · intro line ss h
    rw [parse_status_line1] at h
    simp only [Option.bind_eq_bind] at h
    rcases e25 : pyCharAt? line 25 with _ | c25 <;> rw [e25] at h
    · simp at h
    rw [Option.some_bind] at h
    rcases e26 : pyCharAt? line 26 with _ | c26 <;> rw [e26] at h
    · simp at h
    rw [Option.some_bind] at h
    rcases e27 : pyCharAt? line 27 with _ | c27 <;> rw [e27] at h
    · simp at h
    rw [Option.some_bind] at h
    rcases e30 : pyCharAt? line 30 with _ | c30 <;> rw [e30] at h
    · simp at h
    rw [Option.some_bind] at h
    rcases e31 : pyCharAt? line 31 with _ | c31 <;> rw [e31] at h
    · simp at h
    rw [Option.some_bind] at h
    rcases e38 : pyCharAt? line 38 with _ | c38 <;> rw [e38] at h
    · simp at h
    rw [Option.some_bind] at h
    rcases e63 : pyCharAt? line 63 with _ | c63 <;> rw [e63] at h
    · simp at h
    rw [Option.some_bind, Option.some_inj] at h
    subst h
    constructor
    · simp [List.filter, isLabelSample]
    · simp [List.filter, isLabelSample]
  · intro line
    rfl

/-- Witness for the label-sample theorem at a concrete decodable frame. -/
theorem status_label_samples_witness :
    (parse_status_line1
      "MASER  1 xx xxx xx xx xx ABC12ab123456+1212340 12 123456 num A 1234 1234 123").map
        (fun ss => ((ss.filter (fun s => s.name == "info")).length,
          (ss.filter isLabelSample).length)) = some (1, 9)
    ∧ (parse_status_line2 "DGSW frame").filter isLabelSample = [] := by
  constructor
  · cases h : parse_status_line1
      "MASER  1 xx xxx xx xx xx ABC12ab123456+1212340 12 123456 num A 1234 1234 123" with
    | none =>
      exact absurd h (by decide)
    | some ss =>
      have h2 := status_label_samples.1 _ ss h
      simp [h2.1, h2.2]
  · exact status_label_samples.2 "DGSW frame"

/-! ## Claim C4: analog channel decoding -/

theorem parse_analog_get? (line sid : String) (chans : List String) (i : Nat)
    (cid : String) (hl : analogLookup sid = some chans)
    (hc : chans.get? i = some cid) :
    (parse_analog_chan_line line sid).get? i
      = some (Sample.mk (normName sid ++ "_" ++ normName cid)
          (.vfloat (if normName cid = "if" then str2float (pySlice line 30 37)
            else str2float (pySlice line (15 + i * 8) (15 + i * 8 + 6)))) []) := by
  unfold parse_analog_chan_line
  rw [hl]
  simp only [Option.getD_some]
  rw [List.get?_map, List.get?_enum, hc]
  simp

/-- C4: for an analog line of channel set `S`, the sample at channel index
`i` carries the name `{group}_{channel}` (both parts stripped, spaces
replaced by underscores, lower-cased) and the float value parsed from
`[15+8i, 15+8i+6)` — except that a channel whose normalized name is "if"
is read from the fixed range `[30,37)` regardless of its index; in
particular a CURRENTS line with "123.45" at `[15,21)` emits
`currents_p28` with value 123.45. -/
theorem analog_decode_fields :
    (∀ line sid chans i cid, analogLookup sid = some chans →
      chans.get? i = some cid →
      (parse_analog_chan_line line sid).get? i
        = some (Sample.mk (normName sid ++ "_" ++ normName cid)
            (.vfloat (if normName cid = "if" then str2float (pySlice line 30 37)
              else str2float (pySlice line (15 + i * 8) (15 + i * 8 + 6)))) []))
    ∧ (parse_analog_chan_line "CURRENTS DUMMY 123.45" "CURRENTS").get? 0
        = some (Sample.mk "currents_p28" (.vfloat ((2469 : Rat) / 20)) []) := by
  constructor
  · intro line sid chans i cid hl hc
    exact parse_analog_get? line sid chans i cid hl hc
  · rw [parse_analog_get? "CURRENTS DUMMY 123.45" "CURRENTS"
      ["  p28  ", "BATCHG ", "VACPMP ", "SOURCE ", "STSEL  ", "H2PUR  "] 0 "  p28  "
      (by decide) (by decide)]
    have hif : normName "  p28  " ≠ "if" := by decide
    have hs : pySlice "CURRENTS DUMMY 123.45" (15 + 0 * 8) (15 + 0 * 8 + 6)
        = "123.45" := rfl
    have hv : str2float "123.45" = (2469 : Rat) / 20 := by
      have h : pyFloat? "123.45"
          = some (((123 : Nat) : Rat) + ((45 : Nat) : Rat) / (10 : Rat) ^ (2 : Nat)) := rfl
      rw [str2float, h, Option.getD_some]
      norm_num
    rw [if_neg hif, hs, hv]
    rfl

/-- Witness for the analog field theorem: channel index 1 of VOLTAGES
(regular range) and channel index 2 of MISC (the "if" override). -/
theorem analog_decode_fields_witness :
    (parse_analog_chan_line "somevoltline" "VOLTAGES").get? 1
      = some (Sample.mk (normName "VOLTAGES" ++ "_" ++ normName "  p18  ")
          (.vfloat (if normName "  p18  " = "if"
            then str2float (pySlice "somevoltline" 30 37)
            else str2float (pySlice "somevoltline" (15 + 1 * 8) (15 + 1 * 8 + 6)))) [])
    ∧ (parse_analog_chan_line "miscline" " MISC   ").get? 2
        = some (Sample.mk (normName " MISC   " ++ "_" ++ normName "   IF  ")
            (.vfloat (if normName "   IF  " = "if"
              then str2float (pySlice "miscline" 30 37)
              else str2float (pySlice "miscline" (15 + 2 * 8) (15 + 2 * 8 + 6)))) []) :=
  ⟨analog_decode_fields.1 "somevoltline" "VOLTAGES"
    ["  p28  ", "  p18  ", "  p5   ", "  n18  ", "VACION ", "THRMREF", "  p00  ", " p2 REF"]
    1 "  p18  " (by decide) (by decide),
   analog_decode_fields.1 "miscline" " MISC   "
    [" PK PH ", "  VCO  ", "   IF  ", "PRESS  ", " 1MHZ  ", " GAIN  ", "OFFSET ", "RAW REF"]
    2 "   IF  " (by decide) (by decide)⟩

/-! ## Helper lemmas: digit runs and whitespace stripping for C10 -/

theorem digit_ne_underscore {c : Char} (h : isDigitB c = true) : ¬(c = '_') := by
  intro he
  subst he
  exact absurd h (by decide)

theorem digit_not_ws {c : Char} (h : isDigitB c = true) : isWsChar c = false := by
  simp only [isDigitB, Bool.and_eq_true, decide_eq_true_eq] at h
  simp only [isWsChar, Bool.or_eq_false_iff, decide_eq_false_iff_not]
  omega

theorem digitVal?_ten_digit {c : Char} (h : isDigitB c = true) :
    digitVal? 10 c = some (c.toNat - 48) := by
  simp only [isDigitB, Bool.and_eq_true, decide_eq_true_eq] at h
  unfold digitVal?
  rw [if_pos (by simp only [Bool.and_eq_true, decide_eq_true_eq]; exact h),
    if_pos (by omega)]

theorem digitVal?_ten_none {c : Char} (h : isDigitB c = false) :
    digitVal? 10 c = none := by
  have hn : ¬(48 ≤ c.toNat ∧ c.toNat ≤ 57) := by
    intro hc
    rw [isDigitB] at h
    simp [hc.1, hc.2] at h
  unfold digitVal?
  rw [if_neg (by simp only [Bool.and_eq_true, decide_eq_true_eq]; exact hn)]
  by_cases h2 : 97 ≤ c.toNat ∧ c.toNat ≤ 122
  · rw [if_pos (by simp only [Bool.and_eq_true, decide_eq_true_eq]; exact h2),
      if_neg (by omega)]
  · rw [if_neg (by simp only [Bool.and_eq_true, decide_eq_true_eq]; exact h2)]
    by_cases h3 : 65 ≤ c.toNat ∧ c.toNat ≤ 90
    · rw [if_pos (by simp only [Bool.and_eq_true, decide_eq_true_eq]; exact h3),
        if_neg (by omega)]
    · rw [if_neg (by simp only [Bool.and_eq_true, decide_eq_true_eq]; exact h3)]

theorem decVal?_eq_some {t : List Char} {n : Nat} (h : decVal? t = some n) :
    t ≠ [] ∧ t.all isDigitB = true ∧ n = natOfDigits t := by
  unfold decVal? at h
  by_cases h1 : t.isEmpty
  · rw [if_pos h1] at h
    exact absurd h (by simp)
  · rw [if_neg h1] at h
    by_cases h2 : t.all isDigitB
    · rw [if_pos h2] at h
      refine ⟨by simpa using h1, h2, ?_⟩
      cases h
      rfl
    · rw [if_neg h2] at h
      exact absurd h (by simp)

theorem digitsRest_digits :
    ∀ (t : List Char), t.all isDigitB = true → ∀ acc : Nat,
      digitsRest 10 acc t
        = some (t.foldl (fun a c => a * 10 + (c.toNat - 48)) acc) := by
  intro t
  induction t with
  | nil => intro _ acc; rfl
  | cons c cs ih =>
    intro hall acc
    rw [List.all_cons, Bool.and_eq_true] at hall
    obtain ⟨hc, hcs⟩ := hall
    rw [digitsRest.eq_def]
    simp only [if_neg (digit_ne_underscore hc), digitVal?_ten_digit hc]
    rw [ih hcs, List.foldl_cons]

theorem digitsRun?_decVal {t : List Char} {n : Nat} (h : decVal? t = some n) :
    digitsRun? 10 t = some n := by
  obtain ⟨hne, hall, hnv⟩ := decVal?_eq_some h
  cases t with
  | nil => exact absurd rfl hne
  | cons c cs =>
    rw [List.all_cons, Bool.and_eq_true] at hall
    obtain ⟨hc, hcs⟩ := hall
    rw [digitsRun?.eq_def]
    simp only [digitVal?_ten_digit hc]
    rw [digitsRest_digits cs hcs, hnv]
    have h0 : (0 : Nat) * 10 + (c.toNat - 48) = c.toNat - 48 := by omega
    rw [natOfDigits, List.foldl_cons, h0]

theorem pyIntAfterSign_ten (cs : List Char) :
    pyIntAfterSign 10 cs = digitsRun? 10 cs := by
  unfold pyIntAfterSign
  rw [if_neg (by omega)]

theorem takeDigitRun_digits :
    ∀ (ds rest : List Char), ds.all isDigitB = true →
      (∀ c cs, rest = c :: cs → isDigitB c = false ∧ ¬(c = '_')) →
      ∀ acc n : Nat, takeDigitRun 10 acc n (ds ++ rest)
        = (ds.foldl (fun a c => a * 10 + (c.toNat - 48)) acc, n + ds.length, rest) := by
  intro ds
  induction ds with
  | nil =>
    intro rest _ hrest acc n
    cases rest with
    | nil => simp [takeDigitRun]
    | cons c cs =>
      obtain ⟨hcd, hcu⟩ := hrest c cs rfl
      rw [List.nil_append, takeDigitRun.eq_def]
      simp only [if_neg hcu, digitVal?_ten_none hcd]
      simp
  | cons d t ih =>
    intro rest hall hrest acc n
    rw [List.all_cons, Bool.and_eq_true] at hall
    obtain ⟨hd, ht⟩ := hall
    rw [List.cons_append, takeDigitRun.eq_def]
    simp only [if_neg (digit_ne_underscore hd), digitVal?_ten_digit hd]
    rw [ih rest ht hrest]
    rw [List.foldl_cons, List.length_cons]
    have h2 : n + 1 + t.length = n + (t.length + 1) := by omega
    rw [h2]

theorem dropWhile_congr_of_imp {α : Type} {p q : α → Bool}
    (himp : ∀ c, p c = true → q c = true) :
    ∀ l : List α, (∀ a, (l.dropWhile p).head? = some a → q a = false) →
      l.dropWhile q = l.dropWhile p := by
  intro l
  induction l with
  | nil => intro _; rfl
  | cons x xs ih =>
    intro hh
    by_cases hx : p x = true
    · rw [List.dropWhile_cons, if_pos (himp x hx), List.dropWhile_cons, if_pos hx]
      refine ih ?_
      intro a ha
      apply hh
      rw [List.dropWhile_cons, if_pos hx]
      exact ha
    · have hqx : q x = false := by
        apply hh x
        rw [List.dropWhile_cons, if_neg hx]
        rfl
      rw [List.dropWhile_cons, if_neg (by simp [hqx]), List.dropWhile_cons, if_neg hx]

theorem stripBoth_subset_eq {p q : Char → Bool}
    (himp : ∀ c, p c = true → q c = true) (l : List Char)
    (hhead : ∀ a, (stripBoth p l).head? = some a → q a = false)
    (hlast : ∀ a, (stripBoth p l).getLast? = some a → q a = false) :
    stripBoth q l = stripBoth p l := by
  have hm : l.dropWhile q = l.dropWhile p := by
    apply dropWhile_congr_of_imp himp
    intro a ha
    apply hhead
    rw [stripBoth_head?_eq]
    exact ha
  unfold stripBoth
  rw [hm]
  congr 1
  apply dropWhile_congr_of_imp himp
  intro a ha
  apply hlast
  show (stripBoth p l).getLast? = some a
  unfold stripBoth
  rw [List.getLast?_reverse]
  exact ha

theorem space_imp_ws : ∀ c : Char, decide (c = ' ') = true → isWsChar c = true := by
  intro c h
  rw [decide_eq_true_eq] at h
  subst h
  rfl

theorem getLast?_cons_ne_nil {α : Type} (x : α) {l : List α} (h : l ≠ []) :
    (x :: l).getLast? = l.getLast? := by
  cases l with
  | nil => exact absurd rfl h
  | cons y t => rw [List.getLast?_cons_cons]

theorem mem_of_head?_eq_some {α : Type} {l : List α} {a : α}
    (h : l.head? = some a) : a ∈ l := by
  cases l with
  | nil => simp at h
  | cons x t =>
    rw [List.head?_cons, Option.some_inj] at h
    subst h
    exact List.mem_cons_self x t

theorem getLast_digits_not_ws {t : List Char} (hall : t.all isDigitB = true) :
    ∀ a, t.getLast? = some a → isWsChar a = false := by
  intro a ha
  exact digit_not_ws (List.all_eq_true.mp hall a (List.mem_of_getLast?_eq_some ha))

theorem strip_space_to_ws {s : String} {c0 : Char} {ds0 : List Char}
    (hc : stripBoth (fun c => c = ' ') s.data = c0 :: ds0)
    (hhe : isWsChar c0 = false)
    (hla : ∀ a, (c0 :: ds0).getLast? = some a → isWsChar a = false) :
    stripBoth isWsChar s.data = c0 :: ds0 := by
  rw [← hc]
  apply stripBoth_subset_eq space_imp_ws
  · intro a ha
    rw [hc, List.head?_cons, Option.some_inj] at ha
    subst ha
    exact hhe
  · intro a ha
    rw [hc] at ha
    exact hla a ha

theorem pyInt_of_padded {s : String} {v : Int} (h : paddedIntVal? s = some v) :
    pyInt? s 10 = some v := by
  cases hc : stripBoth (fun c => c = ' ') s.data with
  | nil =>
    rw [paddedIntVal?.eq_def] at h
    simp only [hc] at h
    exact absurd h (by simp)
  | cons c0 ds0 =>
    rw [paddedIntVal?.eq_def] at h
    simp only [hc] at h
    by_cases h0 : c0 = '+'
    · simp only [if_pos h0] at h
      obtain ⟨n, hn, hvn⟩ := Option.map_eq_some'.mp h
      obtain ⟨hne, hall, _⟩ := decVal?_eq_some hn
      have hstrip : stripBoth isWsChar s.data = c0 :: ds0 := by
        apply strip_space_to_ws hc (by subst h0; decide)
        intro a ha
        rw [getLast?_cons_ne_nil _ hne] at ha
        exact getLast_digits_not_ws hall a ha
      rw [pyInt?.eq_def]
      simp only [hstrip, if_pos h0]
      rw [pyIntAfterSign_ten, digitsRun?_decVal hn, Option.map_some', hvn]
    · by_cases h1 : c0 = '-'
      · simp only [if_neg h0, if_pos h1] at h
        obtain ⟨n, hn, hvn⟩ := Option.map_eq_some'.mp h
        obtain ⟨hne, hall, _⟩ := decVal?_eq_some hn
        have hstrip : stripBoth isWsChar s.data = c0 :: ds0 := by
          apply strip_space_to_ws hc (by subst h1; decide)
          intro a ha
          rw [getLast?_cons_ne_nil _ hne] at ha
          exact getLast_digits_not_ws hall a ha
        rw [pyInt?.eq_def]
        simp only [hstrip, if_neg h0, if_pos h1]
        rw [pyIntAfterSign_ten, digitsRun?_decVal hn, Option.map_some', hvn]
      · simp only [if_neg h0, if_neg h1] at h
        obtain ⟨n, hn, hvn⟩ := Option.map_eq_some'.mp h
        obtain ⟨hne, hall, _⟩ := decVal?_eq_some hn
        have hc0 : isDigitB c0 = true :=
          List.all_eq_true.mp hall c0 (List.mem_cons_self _ _)
        have hstrip : stripBoth isWsChar s.data = c0 :: ds0 :=
          strip_space_to_ws hc (digit_not_ws hc0) (getLast_digits_not_ws hall)
        rw [pyInt?.eq_def]
        simp only [hstrip, if_neg h0, if_neg h1]
        rw [pyIntAfterSign_ten, digitsRun?_decVal hn, Option.map_some', hvn]

theorem takeWhile_eq_self_of_dropWhile_nil {t : List Char}
    (hrest : t.dropWhile (fun c => c ≠ '.') = []) :
    t.takeWhile (fun c => c ≠ '.') = t := by
  have h2 := List.takeWhile_append_dropWhile (p := fun c => c ≠ '.') (l := t)
  rw [hrest, List.append_nil] at h2
  exact h2

theorem split_at_dot {t : List Char} {c : Char} {fp : List Char}
    (hrest : t.dropWhile (fun c => c ≠ '.') = c :: fp) :
    t = t.takeWhile (fun c => c ≠ '.') ++ c :: fp := by
  conv_lhs => rw [← List.takeWhile_append_dropWhile (p := fun c => c ≠ '.') (l := t)]
  rw [hrest]

theorem dot_of_dropWhile_cons {t : List Char} {c : Char} {fp : List Char}
    (hrest : t.dropWhile (fun c => c ≠ '.') = c :: fp) : c = '.' := by
  have hh := dropWhile_head?_false t c (by rw [hrest]; rfl)
  simpa using hh

theorem decimalVal?_props {t : List Char} {v : Rat} (h : decimalVal? t = some v) :
    t ≠ [] ∧ (∀ a ∈ t, isDigitB a = true ∨ a = '.') := by
  rw [decimalVal?.eq_def] at h
  cases hrest : t.dropWhile (fun c => c ≠ '.') with
  | nil =>
    simp only [hrest] at h
    obtain ⟨n, hn, _⟩ := Option.map_eq_some'.mp h
    rw [takeWhile_eq_self_of_dropWhile_nil hrest] at hn
    obtain ⟨hne, hall, _⟩ := decVal?_eq_some hn
    exact ⟨hne, fun a hat => Or.inl (List.all_eq_true.mp hall a hat)⟩
  | cons c fp =>
    have hdot := dot_of_dropWhile_cons hrest
    subst hdot
    simp only [hrest] at h
    by_cases hcond : ((t.takeWhile (fun c => c ≠ '.')).isEmpty && fp.isEmpty) = true
    · rw [if_pos hcond] at h
      exact absurd h (by simp)
    · rw [if_neg hcond] at h
      by_cases hdig : ((t.takeWhile (fun c => c ≠ '.')).all isDigitB
          && fp.all isDigitB) = true
      · rw [if_pos hdig] at h
        rw [Bool.and_eq_true] at hdig
        obtain ⟨hip, hfp⟩ := hdig
        have hsplit := split_at_dot hrest
        constructor
        · rw [hsplit]
          simp
        · intro a hat
          rw [hsplit] at hat
          rcases List.mem_append.mp hat with hm | hm
          · exact Or.inl (List.all_eq_true.mp hip a hm)
          · rcases List.mem_cons.mp hm with hm2 | hm2
            · exact Or.inr hm2
            · exact Or.inl (List.all_eq_true.mp hfp a hm2)
      · rw [if_neg hdig] at h
        exact absurd h (by simp)

theorem pyFloatAfterSign_decimal {t : List Char} {v : Rat}
    (h : decimalVal? t = some v) : pyFloatAfterSign t = some v := by
  rw [decimalVal?.eq_def] at h
  cases hrest : t.dropWhile (fun c => c ≠ '.') with
  | nil =>
    simp only [hrest] at h
    obtain ⟨n, hn, hv⟩ := Option.map_eq_some'.mp h
    rw [takeWhile_eq_self_of_dropWhile_nil hrest] at hn
    obtain ⟨hne, hall, hnv⟩ := decVal?_eq_some hn
    have htk := takeDigitRun_digits t [] hall
      (fun c cs hcc => absurd hcc (by simp)) 0 0
    rw [List.append_nil] at htk
    rw [pyFloatAfterSign.eq_def]
    simp only [htk, Nat.zero_add]
    rw [if_neg (by simpa using hne)]
    simp only [pyFloatExpPart]
    rw [← hv, hnv]
    rfl
  | cons c fp =>
    have hdot := dot_of_dropWhile_cons hrest
    subst hdot
    simp only [hrest] at h
    by_cases hcond : ((t.takeWhile (fun c => c ≠ '.')).isEmpty && fp.isEmpty) = true
    · rw [if_pos hcond] at h
      exact absurd h (by simp)
    rw [if_neg hcond] at h
    by_cases hdig : ((t.takeWhile (fun c => c ≠ '.')).all isDigitB
        && fp.all isDigitB) = true
    case neg =>
      rw [if_neg hdig] at h
      exact absurd h (by simp)
    rw [if_pos hdig] at h
    rw [Bool.and_eq_true] at hdig
    obtain ⟨hip, hfp⟩ := hdig
    have hsplit := split_at_dot hrest
    have htk1 := takeDigitRun_digits (t.takeWhile (fun c => c ≠ '.')) ('.' :: fp) hip
      (by intro c cs hcc; rw [List.cons.injEq] at hcc; rw [← hcc.1]; exact ⟨rfl, by decide⟩)
      0 0
    have htk2 := takeDigitRun_digits fp [] hfp
      (fun c cs hcc => absurd hcc (by simp)) 0 0
    rw [List.append_nil] at htk2
    conv_lhs => rw [hsplit]
    rw [pyFloatAfterSign.eq_def]
    simp only [htk1, htk2, Nat.zero_add]
    rw [if_neg (by
      simp only [Bool.and_eq_true, decide_eq_true_eq, not_and]
      intro hi hf
      apply hcond
      rw [Bool.and_eq_true, List.isEmpty_eq_true, List.isEmpty_eq_true,
        ← List.length_eq_zero, ← List.length_eq_zero]
      exact ⟨hi, hf⟩)]
    simp only [pyFloatExpPart]
    rw [← h]
    rfl

theorem pyFloat_of_padded {s : String} {v : Rat} (h : paddedFloatVal? s = some v) :
    pyFloat? s = some v := by
  cases hc : stripBoth (fun c => c = ' ') s.data with
  | nil =>
    rw [paddedFloatVal?.eq_def] at h
    simp only [hc] at h
    exact absurd h (by simp)
  | cons c0 ds0 =>
    rw [paddedFloatVal?.eq_def] at h
    simp only [hc] at h
    by_cases h0 : c0 = '+'
    · simp only [if_pos h0] at h
      obtain ⟨hne, hmem⟩ := decimalVal?_props h
      have hstrip : stripBoth isWsChar s.data = c0 :: ds0 := by
        apply strip_space_to_ws hc (by subst h0; decide)
        intro a ha
        rw [getLast?_cons_ne_nil _ hne] at ha
        rcases hmem a (List.mem_of_getLast?_eq_some ha) with hd | hd
        · exact digit_not_ws hd
        · subst hd; decide
      rw [pyFloat?.eq_def]
      simp only [hstrip, if_pos h0]
      exact pyFloatAfterSign_decimal h
    · by_cases h1 : c0 = '-'
      · simp only [if_neg h0, if_pos h1] at h
        obtain ⟨w, hw, hv⟩ := Option.map_eq_some'.mp h
        obtain ⟨hne, hmem⟩ := decimalVal?_props hw
        have hstrip : stripBoth isWsChar s.data = c0 :: ds0 := by
          apply strip_space_to_ws hc (by subst h1; decide)
          intro a ha
          rw [getLast?_cons_ne_nil _ hne] at ha
          rcases hmem a (List.mem_of_getLast?_eq_some ha) with hd | hd
          · exact digit_not_ws hd
          · subst hd; decide
        rw [pyFloat?.eq_def]
        simp only [hstrip, if_neg h0, if_pos h1]
        rw [pyFloatAfterSign_decimal hw, Option.map_some', hv]
      · simp only [if_neg h0, if_neg h1] at h
        obtain ⟨hne, hmem⟩ := decimalVal?_props h
        have hwc0 : isWsChar c0 = false := by
          rcases hmem c0 (List.mem_cons_self _ _) with hd | hd
          · exact digit_not_ws hd
          · subst hd; decide
        have hstrip : stripBoth isWsChar s.data = c0 :: ds0 := by
          apply strip_space_to_ws hc hwc0
          intro a ha
          rcases hmem a (List.mem_of_getLast?_eq_some ha) with hd | hd
          · exact digit_not_ws hd
          · subst hd; decide
        rw [pyFloat?.eq_def]
        simp only [hstrip, if_neg h0, if_neg h1]
        exact pyFloatAfterSign_decimal h

/-! ## Claim C10: space-padded numerals -/

/-- C10 counterexample: the space-padded numeral " -1" is converted
successfully by Python's `int`, yet `str2int` returns `-1` — so `-1`
outputs are not confined to substrings the conversion rejects: a
genuinely parsed `-1` is indistinguishable from the sentinel. -/
theorem padded_minus_one_counterexample :
    paddedIntVal? " -1" = some (-1)
    ∧ pyInt? " -1" 10 = some (-1)
    ∧ str2int " -1" 10 = -1 := by decide

/-- C10 amended: the numeric parsers tolerate the space padding of the
fixed-width columns — every optionally sign-prefixed numeral surrounded
by spaces converts successfully, `str2int`/`str2float` returning its
value; a substring the conversion rejects yields `-1`; and an output of
`-1` implies the substring was either rejected or a numeral denoting `-1`
itself. -/
theorem padded_numerals_parse :
    (∀ s v, paddedIntVal? s = some v → pyInt? s 10 = some v ∧ str2int s 10 = v)
    ∧ (∀ s v, paddedFloatVal? s = some v → pyFloat? s = some v ∧ str2float s = v)
    ∧ (∀ s b, str2int s b = -1 → pyInt? s b = none ∨ pyInt? s b = some (-1))
    ∧ (∀ s, str2float s = -1 → pyFloat? s = none ∨ pyFloat? s = some (-1)) := by
  refine ⟨?_, ?_, ?_, ?_⟩
  · intro s v h
    have h1 := pyInt_of_padded h
    exact ⟨h1, by rw [str2int, h1, Option.getD_some]⟩
  · intro s v h
    have h1 := pyFloat_of_padded h
    exact ⟨h1, by rw [str2float, h1, Option.getD_some]⟩
  · intro s b h
    cases hp : pyInt? s b with
    | none => exact Or.inl rfl
    | some x =>
      right
      rw [str2int, hp, Option.getD_some] at h
      rw [h]
  · intro s h
    cases hp : pyFloat? s with
    | none => exact Or.inl rfl
    | some x =>
      right
      rw [str2float, hp, Option.getD_some] at h
      rw [h]

/-- Witness for the padded-numeral theorem at concrete inputs. -/
theorem padded_numerals_parse_witness :
    (pyInt? " 12" 10 = some 12 ∧ str2int " 12" 10 = 12)
    ∧ (pyFloat? " -3.1 " = some (-(31 / 10 : Rat))
        ∧ str2float " -3.1 " = -(31 / 10 : Rat))
    ∧ (pyInt? "zz" 10 = none ∨ pyInt? "zz" 10 = some (-1))
    ∧ (pyFloat? "zz" = none ∨ pyFloat? "zz" = some (-1)) := by
  refine ⟨padded_numerals_parse.1 " 12" 12 (by decide), ?_,
    padded_numerals_parse.2.2.1 "zz" 10 (by decide),
    padded_numerals_parse.2.2.2 "zz" (by decide)⟩
  have hv : paddedFloatVal? " -3.1 "
      = some (-(((3 : Nat) : Rat) + ((1 : Nat) : Rat) / (10 : Rat) ^ (1 : Nat))) := rfl
  have h := padded_numerals_parse.2.1 " -3.1 " _ hv
  constructor
  · rw [h.1]
    simp only [Option.some.injEq]
    norm_num
  · rw [h.2]
    norm_num

end MaserMon
